import Mathlib

/-!
Verification of the sphere ray tracer (`src/main.cpp`).

Doubles are modelled as real numbers. The 3D vector/point primitives, the
color type and the named color constants live in the repository's `defs.h`,
which is not part of the provided sources; they are modelled from the spec
(§3 data model, §4.1 vector math). Everything else is translated directly
from `main.cpp`.
-/

/-- Modelled from the spec: `Point` from `defs.h`, a 3D point/vector with
real coordinates, used interchangeably for positions and directions. -/
structure Point where
  x : ℝ
  y : ℝ
  z : ℝ

namespace Point

/-- Modelled from the spec: componentwise addition `add(a,b)` (`defs.h`). -/
def add (a b : Point) : Point := ⟨a.x + b.x, a.y + b.y, a.z + b.z⟩

/-- Modelled from the spec: componentwise subtraction `sub(a,b)` (`defs.h`). -/
def sub (a b : Point) : Point := ⟨a.x - b.x, a.y - b.y, a.z - b.z⟩

/-- Modelled from the spec: `scale(v,k)` (`defs.h`), `operator*` with a scalar. -/
def scale (v : Point) (k : ℝ) : Point := ⟨v.x * k, v.y * k, v.z * k⟩

/-- Modelled from the spec: `divide(v,k)` (`defs.h`), `operator/` with a scalar. -/
noncomputable def divide (v : Point) (k : ℝ) : Point :=
  ⟨v.x / k, v.y / k, v.z / k⟩

/-- Modelled from the spec: `dot(a,b)` (`defs.h`), `operator*` between points. -/
def dot (a b : Point) : ℝ := a.x * b.x + a.y * b.y + a.z * b.z

/-- Modelled from the spec: `length(v) = sqrt(dot(v,v))` (`defs.h`). -/
noncomputable def length (v : Point) : ℝ := Real.sqrt (dot v v)

end Point

/-- Modelled from the spec: `Color` from `defs.h`, an RGB triple whose
channels are multiplied by a scalar intensity during shading (no clamping). -/
structure Color where
  r : ℝ
  g : ℝ
  b : ℝ

/-- Modelled from the spec: per-channel scalar multiply `Color * double`. -/
def Color.scale (c : Color) (k : ℝ) : Color := ⟨c.r * k, c.g * k, c.b * k⟩

/-- Modelled from the spec: the `WHITE` constant from `defs.h`
(the fixed background color). -/
def WHITE : Color := ⟨255, 255, 255⟩

/-- Modelled from the spec: the `RED` constant from `defs.h`. -/
def RED : Color := ⟨255, 0, 0⟩

/-- Modelled from the spec: the `GREEN` constant from `defs.h`. -/
def GREEN : Color := ⟨0, 255, 0⟩

/-- Modelled from the spec: the `BLUE` constant from `defs.h`. -/
def BLUE : Color := ⟨0, 0, 255⟩

/-- `Sphere` (`defs.h`, fields as used by `main.cpp`): center, radius, color. -/
structure Sphere where
  center : Point
  radius : ℝ
  color : Color

/-- Modelled from the spec: the three light kinds `AMBIENT`, `POINT`,
`DIRECTIONAL` (`defs.h`). -/
inductive LightType where
  | AMBIENT
  | POINT
  | DIRECTIONAL
deriving DecidableEq

/-- `Light` (`defs.h`, fields as used by `main.cpp`): a position/direction
vector, an intensity and a kind. -/
structure Light where
  vector : Point
  intensity : ℝ
  type : LightType

/-- `DBL_MAX`, the largest finite IEEE-754 double, as a real constant. -/
def DBL_MAX : ℝ := 2 ^ 1024 - 2 ^ 971

/-- The scene (`main.cpp` lines 18-37): camera origin, spheres, lights. -/
structure Scene where
  camera : Point
  spheres : List Sphere
  lights : List Light

/-- The concrete scene built by the `Scene` constructor (`main.cpp` 22-35). -/
def scene : Scene where
  camera := ⟨0, 0, 0⟩
  spheres :=
    [ ⟨⟨0, -1, 3⟩, 1, RED⟩
    , ⟨⟨2, 0, 4⟩, 1, GREEN⟩
    , ⟨⟨-2, 0, 4⟩, 1, BLUE⟩
    , ⟨⟨0, -5001, 0⟩, 5000, ⟨0, 255, 255⟩⟩ ]
  lights :=
    [ ⟨⟨0, 0, 0⟩, 0.2, LightType.AMBIENT⟩
    , ⟨⟨2, 1, 0⟩, 0.6, LightType.POINT⟩
    , ⟨⟨1, 4, 4⟩, 0.2, LightType.DIRECTIONAL⟩ ]

/-- `intersect_ray_sphere` (`main.cpp` 53-69): quadratic roots of the
ray/sphere intersection, or the sentinel `(DBL_MAX, DBL_MAX)` when the
discriminant is negative. -/
noncomputable def intersect_ray_sphere (origin dir : Point) (sphere : Sphere) :
    ℝ × ℝ :=
  let oc := Point.sub origin sphere.center
  let k1 := Point.dot dir dir
  let k2 := 2 * Point.dot oc dir
  let k3 := Point.dot oc oc - sphere.radius * sphere.radius
  let discriminant := k2 * k2 - 4 * k1 * k3
  if discriminant < 0 then (DBL_MAX, DBL_MAX)
  else ((-k2 + Real.sqrt discriminant) / (2 * k1),
        (-k2 - Real.sqrt discriminant) / (2 * k1))

/-- The discriminant `k2*k2 - 4*k1*k3` computed by `intersect_ray_sphere`. -/
def sphereDiscriminant (origin dir : Point) (s : Sphere) : ℝ :=
  let oc := Point.sub origin s.center
  (2 * Point.dot oc dir) * (2 * Point.dot oc dir) -
    4 * Point.dot dir dir * (Point.dot oc oc - s.radius * s.radius)

/-- One iteration of the loop body of `compute_lighting` (`main.cpp` 80-95):
add the light's contribution to the accumulator `i`. -/
noncomputable def lightStep (P N : Point) (i : ℝ) (l : Light) : ℝ :=
  if l.type = LightType.AMBIENT then i + l.intensity
  else
    let L := if l.type = LightType.POINT then Point.sub l.vector P else l.vector
    let d := Point.dot N L
    if d > 0 then i + l.intensity * d / (Point.length N * Point.length L) else i

/-- `compute_lighting` (`main.cpp` 78-97): accumulate every light's
contribution, starting at 0. -/
noncomputable def compute_lighting (sc : Scene) (P N : Point) : ℝ :=
  sc.lights.foldl (lightStep P N) 0

/-- One root check of `trace_ray`'s loop (`main.cpp` 112-119): replace the
running best `(t, m)` by `(r, s)` exactly when `r < t && t_min < r &&
r < t_max`, with strict comparisons. -/
noncomputable def checkRoot (t_min t_max r : ℝ) (s : Sphere)
    (acc : ℝ × Option Sphere) : ℝ × Option Sphere :=
  if r < acc.1 ∧ t_min < r ∧ r < t_max then (r, some s) else acc

/-- One iteration of the sphere loop of `trace_ray` (`main.cpp` 108-120):
check the first root, then the second root against the updated best. -/
noncomputable def hitStep (origin dir : Point) (t_min t_max : ℝ)
    (acc : ℝ × Option Sphere) (s : Sphere) : ℝ × Option Sphere :=
  checkRoot t_min t_max (intersect_ray_sphere origin dir s).2 s
    (checkRoot t_min t_max (intersect_ray_sphere origin dir s).1 s acc)

/-- The sphere loop of `trace_ray` (`main.cpp` 106-120): fold `hitStep` over
the sphere list starting from `t = DBL_MAX`, no sphere. -/
noncomputable def closest_hit (spheres : List Sphere) (origin dir : Point)
    (t_min t_max : ℝ) : ℝ × Option Sphere :=
  spheres.foldl (hitStep origin dir t_min t_max) (DBL_MAX, none)

/-- `trace_ray` (`main.cpp` 105-128): find the closest valid hit and shade
it, or return the background color `WHITE`. -/
noncomputable def trace_ray (sc : Scene) (origin dir : Point)
    (t_min t_max : ℝ) : Color :=
  let res := closest_hit sc.spheres origin dir t_min t_max
  match res.2 with
  | some m =>
      let P := Point.add origin (Point.scale dir res.1)
      let N0 := Point.sub P m.center
      let N := Point.divide N0 (Point.length N0)
      Color.scale m.color (compute_lighting sc P N)
  | none => WHITE

/-- `r` is one of the two values returned by `intersect_ray_sphere`. -/
def isRoot (origin dir : Point) (s : Sphere) (r : ℝ) : Prop :=
  r = (intersect_ray_sphere origin dir s).1 ∨
    r = (intersect_ray_sphere origin dir s).2

/-- A root is valid when it lies strictly between `t_min` and `t_max`
(`main.cpp` 112, 116). -/
def validT (t_min t_max r : ℝ) : Prop := t_min < r ∧ r < t_max

/-- The per-light contribution exactly as the spec words it (§4.3): ambient
lights contribute their intensity; point/directional lights contribute
`intensity * dot(N,L) / (length(N) * length(L))` when `dot(N,L) > 0`,
else 0. Used to compare `compute_lighting` against the spec. -/
noncomputable def lightTermSpec (P N : Point) (l : Light) : ℝ :=
  match l.type with
  | LightType.AMBIENT => l.intensity
  | LightType.POINT =>
      let L := Point.sub l.vector P
      if Point.dot N L > 0 then
        l.intensity * Point.dot N L / (Point.length N * Point.length L)
      else 0
  | LightType.DIRECTIONAL =>
      let L := l.vector
      if Point.dot N L > 0 then
        l.intensity * Point.dot N L / (Point.length N * Point.length L)
      else 0

/-- `int Cw = 2000` (`main.cpp` 9). -/
def Cw : ℤ := 2000

/-- `int Ch = 2000` (`main.cpp` 10). -/
def Ch : ℤ := 2000

/-- `int Vw = 1` (`main.cpp` 11). -/
def Vw : ℤ := 1

/-- `int Vh = 1` (`main.cpp` 12). -/
def Vh : ℤ := 1

/-- `int z_dist = 1` (`main.cpp` 13). -/
def z_dist : ℤ := 1

/-- `CwO = Cw / 2` (`main.cpp` 144). -/
def CwO : ℤ := Cw / 2

/-- `ChO = Ch / 2` (`main.cpp` 145). -/
def ChO : ℤ := Ch / 2

/-- `canvas_to_viewport` (`main.cpp` 141-143): the pixel coordinates are
converted to doubles, `Vw/Cw`, `Vh/Ch`, `z_dist` promoted to double. -/
noncomputable def canvas_to_viewport (x y : ℝ) : Point :=
  ⟨x * (Vw : ℝ) / (Cw : ℝ), y * (Vh : ℝ) / (Ch : ℝ), (z_dist : ℝ)⟩

/-- The canvas, as a partial map from (row, column) indices to colors;
`none` marks a cell never written. -/
def CanvasGrid : Type := ℤ × ℤ → Option Color

/-- The `(x, y)` pairs visited by the nested pixel loops (`main.cpp`
147-148), in loop order: `x` from `-Cw/2` (outer), `y` from `-Ch/2`
(inner), each strictly below the half-size. -/
def pixelPairs : List (ℤ × ℤ) :=
  (List.range Cw.toNat).flatMap fun (i : ℕ) =>
    (List.range Ch.toNat).map fun (j : ℕ) =>
      ((i : ℤ) + -Cw / 2, (j : ℤ) + -Ch / 2)

/-- The canvas cell written for loop pair `(x, y)`:
`image[ChO - y - 1][x + CwO]` (`main.cpp` 151). -/
def canvasIndex (p : ℤ × ℤ) : ℤ × ℤ := (ChO - p.2 - 1, p.1 + CwO)

/-- One iteration of the pixel loop body (`main.cpp` 149-151): compute the
viewport direction, trace the ray with `t_min = 0`, `t_max = 2000`, and
store the color at the flipped/offset canvas index. -/
noncomputable def renderStep (sc : Scene) (img : CanvasGrid) (p : ℤ × ℤ) :
    CanvasGrid :=
  let dir := canvas_to_viewport (p.1 : ℝ) (p.2 : ℝ)
  let color := trace_ray sc sc.camera dir 0 2000
  fun q => if q = canvasIndex p then some color else img q

/-- The full render loop (`main.cpp` 147-153), starting from an
all-unwritten canvas. -/
noncomputable def renderLoop (sc : Scene) : CanvasGrid :=
  pixelPairs.foldl (renderStep sc) fun _ => none

/-- The color of canvas cell `q = (row, col)` as a pure function of the
scene and the cell coordinates: the traced color of the loop pair
`(col - CwO, ChO - row - 1)` that maps onto `q`. -/
noncomputable def pixelColor (sc : Scene) (q : ℤ × ℤ) : Color :=
  trace_ray sc sc.camera
    (canvas_to_viewport ((q.2 - CwO : ℤ) : ℝ) ((ChO - q.1 - 1 : ℤ) : ℝ)) 0 2000

/-- C2: `intersect_ray_sphere` computes `k1 = dot(dir,dir)`,
`k2 = 2*dot(origin - center, dir)`, `k3 = dot(oc,oc) - radius²` and
`discriminant = k2² - 4*k1*k3`; when the discriminant is negative it
returns the sentinel pair `(DBL_MAX, DBL_MAX)`, otherwise it returns
`t1 = (-k2 + sqrt(discriminant)) / (2*k1)` and
`t2 = (-k2 - sqrt(discriminant)) / (2*k1)`. -/
theorem intersect_ray_sphere_C2 (origin dir : Point) (s : Sphere) :
    intersect_ray_sphere origin dir s =
      if (2 * Point.dot (Point.sub origin s.center) dir) ^ 2 -
          4 * Point.dot dir dir *
            (Point.dot (Point.sub origin s.center) (Point.sub origin s.center)
              - s.radius ^ 2) < 0 then
        (DBL_MAX, DBL_MAX)
      else
        ((-(2 * Point.dot (Point.sub origin s.center) dir) +
            Real.sqrt ((2 * Point.dot (Point.sub origin s.center) dir) ^ 2 -
              4 * Point.dot dir dir *
                (Point.dot (Point.sub origin s.center)
                  (Point.sub origin s.center) - s.radius ^ 2))) /
          (2 * Point.dot dir dir),
         (-(2 * Point.dot (Point.sub origin s.center) dir) -
            Real.sqrt ((2 * Point.dot (Point.sub origin s.center) dir) ^ 2 -
              4 * Point.dot dir dir *
                (Point.dot (Point.sub origin s.center)
                  (Point.sub origin s.center) - s.radius ^ 2))) /
          (2 * Point.dot dir dir)) := by
  have h : (2 * Point.dot (Point.sub origin s.center) dir) ^ 2 -
      4 * Point.dot dir dir *
        (Point.dot (Point.sub origin s.center) (Point.sub origin s.center)
          - s.radius ^ 2) =
      2 * Point.dot (Point.sub origin s.center) dir *
        (2 * Point.dot (Point.sub origin s.center) dir) -
      4 * Point.dot dir dir *
        (Point.dot (Point.sub origin s.center) (Point.sub origin s.center)
          - s.radius * s.radius) := by ring
  rw [h]
  rfl

/-- C7: when the discriminant is exactly 0 (tangent ray),
`intersect_ray_sphere` returns equal roots `t1 = t2`. -/
theorem intersect_ray_sphere_C7 (origin dir : Point) (s : Sphere)
    (h : sphereDiscriminant origin dir s = 0) :
    (intersect_ray_sphere origin dir s).1 =
      (intersect_ray_sphere origin dir s).2 := by
  simp only [sphereDiscriminant] at h
  simp only [intersect_ray_sphere]
  rw [h]
  norm_num

/-- Witness for C7 at a concrete tangent configuration: the ray from the
origin along `(0,0,-1)` is tangent to the scene's red sphere. -/
theorem intersect_ray_sphere_C7_witness :
    sphereDiscriminant ⟨0, 0, 0⟩ ⟨0, 0, -1⟩ ⟨⟨0, -1, 3⟩, 1, RED⟩ = 0 ∧
    (intersect_ray_sphere ⟨0, 0, 0⟩ ⟨0, 0, -1⟩ ⟨⟨0, -1, 3⟩, 1, RED⟩).1 =
      (intersect_ray_sphere ⟨0, 0, 0⟩ ⟨0, 0, -1⟩ ⟨⟨0, -1, 3⟩, 1, RED⟩).2 :=
  ⟨by norm_num [sphereDiscriminant, Point.dot, Point.sub],
   intersect_ray_sphere_C7 _ _ _
     (by norm_num [sphereDiscriminant, Point.dot, Point.sub])⟩

/-- C10: when `k1 = dot(dir,dir) > 0` and the discriminant is nonnegative,
the returned pair is ordered: `t1 ≥ t2`. -/
theorem intersect_ray_sphere_C10 (origin dir : Point) (s : Sphere)
    (hk : 0 < Point.dot dir dir) (hd : 0 ≤ sphereDiscriminant origin dir s) :
    (intersect_ray_sphere origin dir s).2 ≤
      (intersect_ray_sphere origin dir s).1 := by
  simp only [sphereDiscriminant] at hd
  simp only [intersect_ray_sphere]
  rw [if_neg (not_lt.mpr hd)]
  have h2k : (0 : ℝ) < 2 * Point.dot dir dir := by linarith
  have hs := Real.sqrt_nonneg
    (2 * Point.dot (Point.sub origin s.center) dir *
        (2 * Point.dot (Point.sub origin s.center) dir) -
      4 * Point.dot dir dir *
        (Point.dot (Point.sub origin s.center) (Point.sub origin s.center)
          - s.radius * s.radius))
  rw [div_le_div_iff₀ h2k h2k]
  nlinarith

/-- Witness for C10 at a concrete input: the tangent ray to the red
sphere, with `k1 = 1 > 0` and discriminant `0 ≥ 0`. -/
theorem intersect_ray_sphere_C10_witness :
    0 < Point.dot ⟨0, 0, -1⟩ ⟨0, 0, -1⟩ ∧
    0 ≤ sphereDiscriminant ⟨0, 0, 0⟩ ⟨0, 0, -1⟩ ⟨⟨0, -1, 3⟩, 1, RED⟩ ∧
    (intersect_ray_sphere ⟨0, 0, 0⟩ ⟨0, 0, -1⟩ ⟨⟨0, -1, 3⟩, 1, RED⟩).2 ≤
      (intersect_ray_sphere ⟨0, 0, 0⟩ ⟨0, 0, -1⟩ ⟨⟨0, -1, 3⟩, 1, RED⟩).1 :=
  ⟨by norm_num [Point.dot],
   by norm_num [sphereDiscriminant, Point.dot, Point.sub],
   intersect_ray_sphere_C10 _ _ _ (by norm_num [Point.dot])
     (by norm_num [sphereDiscriminant, Point.dot, Point.sub])⟩

/-- One lighting-loop iteration adds exactly the spec's per-light term. -/
lemma lightStep_eq (P N : Point) (i : ℝ) (l : Light) :
    lightStep P N i l = i + lightTermSpec P N l := by
  obtain ⟨v, ity, ty⟩ := l
  cases ty
  · simp [lightStep, lightTermSpec]
  · simp only [lightStep, lightTermSpec]
    split_ifs <;> simp_all
  · simp only [lightStep, lightTermSpec]
    split_ifs <;> simp_all

/-- Folding the lighting loop from `i` adds the sum of per-light terms. -/
lemma lighting_foldl (P N : Point) (L : List Light) (i : ℝ) :
    L.foldl (lightStep P N) i = i + (L.map (lightTermSpec P N)).sum := by
  induction L generalizing i with
  | nil => simp
  | cons x xs ih =>
      simp only [List.foldl_cons, List.map_cons, List.sum_cons]
      rw [lightStep_eq, ih]
      ring

/-- C3: `compute_lighting` returns the sum, starting at 0, over all lights
in the scene of: the intensity for an ambient light, and, for point lights
(`L = position - P`) and directional lights (`L = direction`), the term
`intensity * dot(N,L) / (length(N) * length(L))` when `dot(N,L) > 0` and
0 otherwise. -/
theorem compute_lighting_C3 (sc : Scene) (P N : Point) :
    compute_lighting sc P N = (sc.lights.map (lightTermSpec P N)).sum := by
  unfold compute_lighting
  rw [lighting_foldl]
  ring

/-- A single `checkRoot` either keeps the accumulator (and then no valid
update was possible) or installs the root strictly below the old best. -/
lemma checkRoot_spec (t_min t_max r : ℝ) (s : Sphere)
    (acc : ℝ × Option Sphere) :
    (checkRoot t_min t_max r s acc = acc ∧
      (validT t_min t_max r → acc.1 ≤ r))
    ∨ (checkRoot t_min t_max r s acc = (r, some s) ∧
        validT t_min t_max r ∧ r < acc.1) := by
  unfold checkRoot
  by_cases h : r < acc.1 ∧ t_min < r ∧ r < t_max
  · rw [if_pos h]
    exact Or.inr ⟨rfl, ⟨h.2.1, h.2.2⟩, h.1⟩
  · rw [if_neg h]
    refine Or.inl ⟨rfl, fun hv => ?_⟩
    simp only [validT] at hv
    by_contra hlt
    push_neg at hlt
    exact h ⟨hlt, hv.1, hv.2⟩

/-- Processing one sphere either leaves the best candidate unchanged (and
every valid root of that sphere is at least the old best) or returns that
sphere with a valid root strictly below the old best and minimal among the
sphere's valid roots. -/
lemma hitStep_spec (origin dir : Point) (t_min t_max : ℝ)
    (acc : ℝ × Option Sphere) (s : Sphere) :
    (hitStep origin dir t_min t_max acc s = acc ∧
      ∀ r, isRoot origin dir s r → validT t_min t_max r → acc.1 ≤ r)
    ∨ ((hitStep origin dir t_min t_max acc s).2 = some s ∧
        isRoot origin dir s (hitStep origin dir t_min t_max acc s).1 ∧
        validT t_min t_max (hitStep origin dir t_min t_max acc s).1 ∧
        (hitStep origin dir t_min t_max acc s).1 < acc.1 ∧
        ∀ r, isRoot origin dir s r → validT t_min t_max r →
          (hitStep origin dir t_min t_max acc s).1 ≤ r) := by
  have e : hitStep origin dir t_min t_max acc s =
      checkRoot t_min t_max (intersect_ray_sphere origin dir s).2 s
        (checkRoot t_min t_max (intersect_ray_sphere origin dir s).1 s acc) :=
    rfl
  rcases checkRoot_spec t_min t_max (intersect_ray_sphere origin dir s).1 s acc
      with ⟨hB, hBmin⟩ | ⟨hB, hBv, hBlt⟩
  · rw [hB] at e
    rcases checkRoot_spec t_min t_max (intersect_ray_sphere origin dir s).2 s
        acc with ⟨hC, hCmin⟩ | ⟨hC, hCv, hClt⟩
    · rw [hC] at e
      refine Or.inl ⟨e, fun r hr hv => ?_⟩
      simp only [isRoot] at hr
      rcases hr with rfl | rfl
      · exact hBmin hv
      · exact hCmin hv
    · rw [hC] at e
      rw [e]
      refine Or.inr ⟨rfl, Or.inr rfl, hCv, hClt, fun r hr hv => ?_⟩
      simp only [isRoot] at hr
      rcases hr with rfl | rfl
      · exact le_of_lt (lt_of_lt_of_le hClt (hBmin hv))
      · exact le_refl _
  · rw [hB] at e
    rcases checkRoot_spec t_min t_max (intersect_ray_sphere origin dir s).2 s
        ((intersect_ray_sphere origin dir s).1, some s)
        with ⟨hC, hCmin⟩ | ⟨hC, hCv, hClt⟩
    · rw [hC] at e
      rw [e]
      refine Or.inr ⟨rfl, Or.inl rfl, hBv, hBlt, fun r hr hv => ?_⟩
      simp only [isRoot] at hr
      rcases hr with rfl | rfl
      · exact le_refl _
      · exact hCmin hv
    · rw [hC] at e
      rw [e]
      have hClt' : (intersect_ray_sphere origin dir s).2 <
          (intersect_ray_sphere origin dir s).1 := hClt
      refine Or.inr ⟨rfl, Or.inr rfl, hCv, lt_trans hClt' hBlt,
        fun r hr hv => ?_⟩
      simp only [isRoot] at hr
      rcases hr with rfl | rfl
      · exact le_of_lt hClt'
      · exact le_refl _

/-- Full characterization of the sphere loop of `trace_ray`: the best
candidate after folding over `l` starting from `(DBL_MAX, none)`. -/
lemma closest_hit_invariant (origin dir : Point) (t_min t_max : ℝ)
    (l : List Sphere) :
    (closest_hit l origin dir t_min t_max).1 ≤ DBL_MAX
    ∧ ((closest_hit l origin dir t_min t_max).2 = none →
        (closest_hit l origin dir t_min t_max).1 = DBL_MAX ∧
        ∀ s ∈ l, ∀ r, isRoot origin dir s r → validT t_min t_max r →
          ¬ r < DBL_MAX)
    ∧ ∀ m, (closest_hit l origin dir t_min t_max).2 = some m →
        validT t_min t_max (closest_hit l origin dir t_min t_max).1
        ∧ (closest_hit l origin dir t_min t_max).1 < DBL_MAX
        ∧ (∀ s ∈ l, ∀ r, isRoot origin dir s r → validT t_min t_max r →
            (closest_hit l origin dir t_min t_max).1 ≤ r)
        ∧ ∃ l1 l2, l = l1 ++ m :: l2
            ∧ isRoot origin dir m (closest_hit l origin dir t_min t_max).1
            ∧ ∀ s' ∈ l1, ∀ r, isRoot origin dir s' r →
                validT t_min t_max r →
                (closest_hit l origin dir t_min t_max).1 < r := by
  induction l using List.reverseRecOn with
  | nil =>
      refine ⟨le_refl _, fun _ => ⟨rfl, by simp⟩, fun m hm => ?_⟩
      simp [closest_hit] at hm
  | append_singleton l s ih =>
      obtain ⟨ihb, ihn, ihs⟩ := ih
      have hfold : closest_hit (l ++ [s]) origin dir t_min t_max =
          hitStep origin dir t_min t_max
            (closest_hit l origin dir t_min t_max) s := by
        simp [closest_hit, List.foldl_append]
      rcases hitStep_spec origin dir t_min t_max
          (closest_hit l origin dir t_min t_max) s with
        ⟨heq, hmin⟩ | ⟨h2, hroot, hval, hlt, hmin⟩
      · rw [hfold, heq]
        refine ⟨ihb, ?_, ?_⟩
        · intro hnone
          obtain ⟨ht, hall⟩ := ihn hnone
          refine ⟨ht, fun s' hs' r hr hv => ?_⟩
          rcases List.mem_append.mp hs' with h | h
          · exact hall s' h r hr hv
          · have hss : s' = s := by simpa using h
            subst hss
            have := hmin r hr hv
            rw [ht] at this
            exact not_lt.mpr this
        · intro m hm
          obtain ⟨hv, hltmax, hminl, l1, l2, hdec, hr, hfirst⟩ := ihs m hm
          refine ⟨hv, hltmax, ?_, l1, l2 ++ [s], ?_, hr, hfirst⟩
          · intro s' hs' r hrr hvv
            rcases List.mem_append.mp hs' with h | h
            · exact hminl s' h r hrr hvv
            · have hss : s' = s := by simpa using h
              subst hss
              exact hmin r hrr hvv
          · rw [hdec]
            simp
      · rw [hfold]
        have hminl' : ∀ s' ∈ l, ∀ r, isRoot origin dir s' r →
            validT t_min t_max r →
            (hitStep origin dir t_min t_max
              (closest_hit l origin dir t_min t_max) s).1 < r := by
          intro s' hs' r hr hv
          rcases hA2 : (closest_hit l origin dir t_min t_max).2 with _ | m0
          · obtain ⟨ht, hall⟩ := ihn hA2
            have hge := not_lt.mp (hall s' hs' r hr hv)
            rw [← ht] at hge
            exact lt_of_lt_of_le hlt hge
          · obtain ⟨_, _, hminl, _⟩ := ihs m0 hA2
            exact lt_of_lt_of_le hlt (hminl s' hs' r hr hv)
        refine ⟨le_of_lt (lt_of_lt_of_le hlt ihb), ?_, ?_⟩
        · intro hnone
          rw [h2] at hnone
          exact absurd hnone (by simp)
        · intro m hm
          rw [h2] at hm
          have hms : s = m := Option.some.inj hm
          subst hms
          refine ⟨hval, lt_of_lt_of_le hlt ihb, ?_, l, [], rfl, hroot, ?_⟩
          · intro s' hs' r hrr hvv
            rcases List.mem_append.mp hs' with h | h
            · exact le_of_lt (hminl' s' h r hrr hvv)
            · have hss : s' = s := by simpa using h
              subst hss
              exact hmin r hrr hvv
          · intro s' hs' r hrr hvv
            exact hminl' s' hs' r hrr hvv

/-- C1: `trace_ray`'s loop considers both intersection roots of every
sphere; a root `t` is a valid hit exactly when `t_min < t < t_max`; the
loop returns no sphere exactly when no sphere has a valid root, and
otherwise it returns a sphere together with its valid root that is minimal
over all spheres and both roots, every sphere listed before the winner
having all its valid roots strictly larger (first-encountered wins ties,
by the strict `<` updates). -/
theorem trace_ray_C1 (sc : Scene) (origin dir : Point) (t_min t_max : ℝ)
    (hmax : t_max ≤ DBL_MAX) :
    (((closest_hit sc.spheres origin dir t_min t_max).2 = none) ↔
      ∀ s ∈ sc.spheres, ∀ r, isRoot origin dir s r →
        ¬ validT t_min t_max r)
    ∧ ∀ m, (closest_hit sc.spheres origin dir t_min t_max).2 = some m →
        validT t_min t_max (closest_hit sc.spheres origin dir t_min t_max).1
        ∧ (∀ s ∈ sc.spheres, ∀ r, isRoot origin dir s r →
            validT t_min t_max r →
            (closest_hit sc.spheres origin dir t_min t_max).1 ≤ r)
        ∧ ∃ l1 l2, sc.spheres = l1 ++ m :: l2
            ∧ isRoot origin dir m
                (closest_hit sc.spheres origin dir t_min t_max).1
            ∧ ∀ s' ∈ l1, ∀ r, isRoot origin dir s' r →
                validT t_min t_max r →
                (closest_hit sc.spheres origin dir t_min t_max).1 < r := by
  obtain ⟨hb, hn, hs⟩ :=
    closest_hit_invariant origin dir t_min t_max sc.spheres
  refine ⟨⟨?_, ?_⟩, ?_⟩
  · intro hnone s hs' r hr hv
    obtain ⟨_, hall⟩ := hn hnone
    have hvv := hv
    simp only [validT] at hvv
    exact hall s hs' r hr hv (lt_of_lt_of_le hvv.2 hmax)
  · intro hno
    rcases hres : (closest_hit sc.spheres origin dir t_min t_max).2
        with _ | m
    · rfl
    · obtain ⟨hv, _, _, l1, l2, hdec, hroot, _⟩ := hs m hres
      have hm : m ∈ sc.spheres := by rw [hdec]; simp
      exact absurd hv (hno m hm _ hroot)
  · intro m hm
    obtain ⟨hv, _, hmin, l1, l2, hdec, hroot, hfirst⟩ := hs m hm
    exact ⟨hv, hmin, l1, l2, hdec, hroot, hfirst⟩

/-- Witness for C1 at the concrete scene with `t_min = 0`, `t_max = 2000`
(one projected consequence at a concrete ray). -/
theorem trace_ray_C1_witness :
    ((2000 : ℝ) ≤ DBL_MAX) ∧
    (((closest_hit scene.spheres ⟨0, 0, 0⟩ ⟨0, 0, 1⟩ 0 2000).2 = none) ↔
      ∀ s ∈ scene.spheres, ∀ r, isRoot ⟨0, 0, 0⟩ ⟨0, 0, 1⟩ s r →
        ¬ validT 0 2000 r) :=
  ⟨by norm_num [DBL_MAX],
   (trace_ray_C1 scene ⟨0, 0, 0⟩ ⟨0, 0, 1⟩ 0 2000 (by norm_num [DBL_MAX])).1⟩

/-- C4: when no sphere in the scene yields a root `t` with
`t_min < t < t_max`, `trace_ray` returns exactly the background color
`WHITE`. -/
theorem trace_ray_C4 (sc : Scene) (origin dir : Point) (t_min t_max : ℝ)
    (h : ∀ s ∈ sc.spheres, ∀ r, isRoot origin dir s r →
      ¬ validT t_min t_max r) :
    trace_ray sc origin dir t_min t_max = WHITE := by
  have hnone : (closest_hit sc.spheres origin dir t_min t_max).2 = none := by
    rcases hres : (closest_hit sc.spheres origin dir t_min t_max).2
        with _ | m
    · rfl
    · obtain ⟨_, _, hs⟩ :=
        closest_hit_invariant origin dir t_min t_max sc.spheres
      obtain ⟨hv, _, _, l1, l2, hdec, hroot, _⟩ := hs m hres
      have hm : m ∈ sc.spheres := by rw [hdec]; simp
      exact absurd hv (h m hm _ hroot)
  simp only [trace_ray]
  rw [hnone]

/-- The tangent ray `(0,0,-1)` against the red sphere: double root `-3`. -/
lemma intersect_back_red :
    intersect_ray_sphere ⟨0, 0, 0⟩ ⟨0, 0, -1⟩ ⟨⟨0, -1, 3⟩, 1, RED⟩ =
      (-3, -3) := by
  norm_num [intersect_ray_sphere, Point.dot, Point.sub, Real.sqrt_zero]

/-- The ray `(0,0,-1)` misses the green sphere: sentinel pair. -/
lemma intersect_back_green :
    intersect_ray_sphere ⟨0, 0, 0⟩ ⟨0, 0, -1⟩ ⟨⟨2, 0, 4⟩, 1, GREEN⟩ =
      (DBL_MAX, DBL_MAX) := by
  norm_num [intersect_ray_sphere, Point.dot, Point.sub]

/-- The ray `(0,0,-1)` misses the blue sphere: sentinel pair. -/
lemma intersect_back_blue :
    intersect_ray_sphere ⟨0, 0, 0⟩ ⟨0, 0, -1⟩ ⟨⟨-2, 0, 4⟩, 1, BLUE⟩ =
      (DBL_MAX, DBL_MAX) := by
  norm_num [intersect_ray_sphere, Point.dot, Point.sub]

/-- The ray `(0,0,-1)` misses the big teal sphere: sentinel pair. -/
lemma intersect_back_teal :
    intersect_ray_sphere ⟨0, 0, 0⟩ ⟨0, 0, -1⟩
      ⟨⟨0, -5001, 0⟩, 5000, ⟨0, 255, 255⟩⟩ = (DBL_MAX, DBL_MAX) := by
  norm_num [intersect_ray_sphere, Point.dot, Point.sub]

/-- Witness for C4: the ray from the camera straight backwards misses every
scene sphere in `(0, 2000)` and is traced to the background color. -/
theorem trace_ray_C4_witness :
    (∀ s ∈ scene.spheres, ∀ r, isRoot ⟨0, 0, 0⟩ ⟨0, 0, -1⟩ s r →
      ¬ validT 0 2000 r) ∧
    trace_ray scene ⟨0, 0, 0⟩ ⟨0, 0, -1⟩ 0 2000 = WHITE := by
  have h : ∀ s ∈ scene.spheres, ∀ r, isRoot ⟨0, 0, 0⟩ ⟨0, 0, -1⟩ s r →
      ¬ validT 0 2000 r := by
    intro s hs r hr
    simp only [scene, List.mem_cons, List.not_mem_nil, or_false] at hs
    rcases hs with rfl | rfl | rfl | rfl
    · simp only [isRoot, intersect_back_red] at hr
      rcases hr with rfl | rfl <;> · simp only [validT]; norm_num
    · simp only [isRoot, intersect_back_green] at hr
      rcases hr with rfl | rfl <;>
        · simp only [validT, DBL_MAX]; norm_num
    · simp only [isRoot, intersect_back_blue] at hr
      rcases hr with rfl | rfl <;>
        · simp only [validT, DBL_MAX]; norm_num
    · simp only [isRoot, intersect_back_teal] at hr
      rcases hr with rfl | rfl <;>
        · simp only [validT, DBL_MAX]; norm_num
  exact ⟨h, trace_ray_C4 scene ⟨0, 0, 0⟩ ⟨0, 0, -1⟩ 0 2000 h⟩

/-- The canvas index map `(x,y) ↦ (ChO - y - 1, x + CwO)` is injective. -/
lemma canvasIndex_inj : Function.Injective canvasIndex := by
  intro p q h
  cases p
  cases q
  simp only [canvasIndex, Prod.mk.injEq] at h ⊢
  omega

/-- Folding the pixel loop never changes a cell no iteration writes to. -/
lemma renderFold_untouched (sc : Scene) (ps : List (ℤ × ℤ))
    (img : CanvasGrid) (q : ℤ × ℤ) (h : ∀ p ∈ ps, canvasIndex p ≠ q) :
    ps.foldl (renderStep sc) img q = img q := by
  induction ps generalizing img with
  | nil => rfl
  | cons a ps ih =>
      simp only [List.foldl_cons]
      rw [ih _ fun p' hp' => h p' (List.mem_cons_of_mem _ hp')]
      simp only [renderStep]
      rw [if_neg fun hc => h a (List.mem_cons_self a ps) hc.symm]

/-- A cell written by some loop pair `p` holds `p`'s traced color at the
end of the fold. -/
lemma renderFold_written (sc : Scene) (ps : List (ℤ × ℤ))
    (img : CanvasGrid) (x y : ℤ) (hp : (x, y) ∈ ps) :
    ps.foldl (renderStep sc) img (canvasIndex (x, y)) =
      some (trace_ray sc sc.camera
        (canvas_to_viewport (x : ℝ) (y : ℝ)) 0 2000) := by
  induction ps generalizing img with
  | nil => cases hp
  | cons a ps ih =>
      simp only [List.foldl_cons]
      by_cases hmem : (x, y) ∈ ps
      · exact ih _ hmem
      · have hpa : (x, y) = a := by
          rcases List.mem_cons.mp hp with h | h
          · exact h
          · exact absurd h hmem
        subst hpa
        rw [renderFold_untouched sc ps _ (canvasIndex (x, y))
          fun p' hp' hc => hmem (canvasIndex_inj hc ▸ hp')]
        simp [renderStep]

/-- A pair `(x, y)` is visited by the loop exactly when it is inside the
centered pixel ranges. -/
lemma mem_pixelPairs (x y : ℤ) :
    (x, y) ∈ pixelPairs ↔
      (-Cw / 2 ≤ x ∧ x < Cw / 2 ∧ -Ch / 2 ≤ y ∧ y < Ch / 2) := by
  constructor
  · intro hmem
    simp only [pixelPairs] at hmem
    rcases List.mem_flatMap.mp hmem with ⟨i, hi, hin⟩
    rcases List.mem_map.mp hin with ⟨j, hj, heq⟩
    rw [List.mem_range] at hi hj
    rw [Prod.mk.injEq] at heq
    obtain ⟨hx, hy⟩ := heq
    simp only [Cw, Ch] at hx hy hi hj ⊢
    omega
  · intro h
    simp only [Cw, Ch] at h
    simp only [pixelPairs]
    apply List.mem_flatMap.mpr
    refine ⟨(x + Cw / 2).toNat, List.mem_range.mpr ?_, ?_⟩
    · simp only [Cw]
      omega
    apply List.mem_map.mpr
    refine ⟨(y + Ch / 2).toNat, List.mem_range.mpr ?_, ?_⟩
    · simp only [Ch]
      omega
    rw [Prod.mk.injEq]
    simp only [Cw, Ch]
    constructor <;> omega

/-- C9: for every loop pair, the canvas write indices are in bounds: the
row index `ChO - y - 1` lies in `[0, Ch)` and the column index `x + CwO`
lies in `[0, Cw)`. -/
theorem render_C9 (x y : ℤ) (hx1 : -Cw / 2 ≤ x) (hx2 : x < Cw / 2)
    (hy1 : -Ch / 2 ≤ y) (hy2 : y < Ch / 2) :
    0 ≤ ChO - y - 1 ∧ ChO - y - 1 < Ch ∧ 0 ≤ x + CwO ∧ x + CwO < Cw := by
  simp only [Cw, Ch, CwO, ChO] at *
  omega

/-- Witness for C9 at the pixel `(0, 0)`. -/
theorem render_C9_witness :
    (-Cw / 2 ≤ (0 : ℤ)) ∧ ((0 : ℤ) < Cw / 2) ∧ (-Ch / 2 ≤ (0 : ℤ)) ∧
    ((0 : ℤ) < Ch / 2) ∧
    (0 ≤ ChO - 0 - 1 ∧ ChO - 0 - 1 < Ch ∧ 0 ≤ (0 : ℤ) + CwO ∧
      (0 : ℤ) + CwO < Cw) :=
  ⟨by decide, by decide, by decide, by decide,
   render_C9 0 0 (by decide) (by decide) (by decide) (by decide)⟩

/-- C5: every in-bounds canvas cell `(row, col)` corresponds to an iterated
loop pair `(x, y) = (col - CwO, ChO - row - 1)` (vertical flip plus
centering offset), and after the loop it holds the color traced for the
viewport direction `D = (x*Vw/Cw, y*Vh/Ch, z_dist)` with `t_min = 0`,
`t_max = 2000`. -/
theorem render_C5 (sc : Scene) (row col : ℤ) (h1 : 0 ≤ row) (h2 : row < Ch)
    (h3 : 0 ≤ col) (h4 : col < Cw) :
    (col - CwO, ChO - row - 1) ∈ pixelPairs ∧
    renderLoop sc (row, col) =
      some (trace_ray sc sc.camera
        (canvas_to_viewport ((col - CwO : ℤ) : ℝ) ((ChO - row - 1 : ℤ) : ℝ))
        0 2000) := by
  have hmem : (col - CwO, ChO - row - 1) ∈ pixelPairs := by
    rw [mem_pixelPairs]
    simp only [Cw, Ch, CwO, ChO] at *
    omega
  have hkey : canvasIndex (col - CwO, ChO - row - 1) = (row, col) := by
    simp only [canvasIndex, Prod.mk.injEq]
    omega
  refine ⟨hmem, ?_⟩
  simp only [renderLoop]
  rw [← hkey]
  exact renderFold_written sc pixelPairs _ (col - CwO) (ChO - row - 1) hmem

/-- Witness for C5 at the canvas cell `(0, 0)` of the concrete scene. -/
theorem render_C5_witness :
    ((0 : ℤ) ≤ 0) ∧ ((0 : ℤ) < Ch) ∧ ((0 : ℤ) ≤ 0) ∧ ((0 : ℤ) < Cw) ∧
    ((0 - CwO, ChO - 0 - 1) ∈ pixelPairs ∧
      renderLoop scene (0, 0) =
        some (trace_ray scene scene.camera
          (canvas_to_viewport ((0 - CwO : ℤ) : ℝ) ((ChO - 0 - 1 : ℤ) : ℝ))
          0 2000)) :=
  ⟨le_refl 0, by decide, le_refl 0, by decide,
   render_C5 scene 0 0 (le_refl 0) (by decide) (le_refl 0) (by decide)⟩

/-- C8: rendering is deterministic: the output grid is the pointwise image
of a pure function of the immutable scene and the cell coordinates
(`pixelColor`), in-bounds cells holding their traced color and everything
else untouched; two runs over the same inputs therefore produce identical
grids. -/
theorem render_C8 (sc : Scene) (q : ℤ × ℤ) :
    renderLoop sc q =
      if 0 ≤ q.1 ∧ q.1 < Ch ∧ 0 ≤ q.2 ∧ q.2 < Cw then
        some (pixelColor sc q)
      else none := by
  obtain ⟨row, col⟩ := q
  by_cases hq : 0 ≤ (row, col).1 ∧ (row, col).1 < Ch ∧
      0 ≤ (row, col).2 ∧ (row, col).2 < Cw
  · rw [if_pos hq]
    obtain ⟨h1, h2, h3, h4⟩ := hq
    simp only at h1 h2 h3 h4
    have hmem : (col - CwO, ChO - row - 1) ∈ pixelPairs := by
      rw [mem_pixelPairs]
      simp only [Cw, Ch, CwO, ChO] at *
      omega
    have hkey : canvasIndex (col - CwO, ChO - row - 1) = (row, col) := by
      simp only [canvasIndex, Prod.mk.injEq]
      constructor <;> omega
    simp only [renderLoop]
    have hpc : pixelColor sc (row, col) = trace_ray sc sc.camera
        (canvas_to_viewport ((col - CwO : ℤ) : ℝ) ((ChO - row - 1 : ℤ) : ℝ))
        0 2000 := rfl
    rw [hpc, ← hkey]
    exact renderFold_written sc pixelPairs _ (col - CwO) (ChO - row - 1) hmem
  · rw [if_neg hq]
    simp only [renderLoop]
    rw [renderFold_untouched sc pixelPairs _ (row, col) ?_]
    intro p hp hc
    obtain ⟨x, y⟩ := p
    rw [mem_pixelPairs] at hp
    apply hq
    rw [← hc]
    simp only [canvasIndex] at hp ⊢
    simp only [Cw, Ch, CwO, ChO] at hp ⊢
    omega
